import Mathlib

/-!
Verification development for the coalfield truck simulation engine
(`src/services/SimulationEngine.ts`, `src/services/pathfinding.ts`,
`src/types.ts`, `src/services/geometry.ts`).

Shallow embedding conventions:
* JavaScript numbers are modelled as rationals (`ℚ`).  Division is rational
  field division, so `x / 0 = 0` here while IEEE gives `Infinity`/`NaN`;
  none of the statements below evaluates a division by zero except where a
  comment explicitly flags it.
* The congestion exponent `beta` is modelled as a natural number so that
  `Math.pow (n / C) beta` stays inside `ℚ` (the shipped default is `2.0`).
* `Math.random()` / `gaussianRandom` are impure inputs; they are passed in
  explicitly (a `rand` sample for `spawnTruck`, a per-truck/per-beacon noise
  table for `tick`), as the spec requires the noise source to be injectable.
* `JavaScript Infinity` in the A* score maps is modelled as `Option ℚ`
  with `none` playing the role of `Infinity`.
* The A* `while` loop and the `reconstructPath` `while` loop are given
  explicit fuel; every run of the TypeScript loop that terminates is
  reproduced exactly by a sufficiently large fuel, and claims about
  successful calls are conditioned on a `some` result.
* The Euclidean distance of `geometry.ts` involves a square root, which has
  no exact rational representative, so engine functions take the distance
  function as a parameter `dist`.  Concrete runs use `axisDist`, which
  agrees with the Euclidean distance whenever the points involved share a
  `y`-coordinate (all concrete maps below are laid out on the x-axis).
-/

/-- Planar point (`types.ts` `Point`). -/
structure Point where
  x : ℚ
  y : ℚ
deriving DecidableEq, Repr

/-- Graph node (`types.ts` `Node`): identity, label, position. -/
structure Node where
  id : String
  label : String
  pos : Point
deriving DecidableEq, Repr

/-- Road edge (`types.ts` `Edge`). -/
structure Edge where
  id : String
  sourceId : String
  targetId : String
  length : ℚ
  capacity : ℚ
  baseSpeed : ℚ
  baseTravelTime : ℚ
  currentLoad : ℚ
  currentWeight : ℚ
  isClosed : Bool
deriving DecidableEq, Repr

/-- WiFi beacon (`types.ts` `Router`). -/
structure Router where
  id : String
  pos : Point
  mappedEdgeIds : List String
deriving DecidableEq, Repr

/-- Agent lifecycle state (`types.ts` `TruckState`). -/
inductive TruckState where
  | moving
  | waiting
  | broken
  | idle
  | finished
deriving DecidableEq, Repr

/-- Mobile agent (`types.ts` `Truck`). -/
structure Truck where
  id : String
  position : Point
  currentEdgeId : Option String
  distanceAlongEdge : ℚ
  speed : ℚ
  state : TruckState
  routePlan : List String
  destinationNodeId : Option String
  inferredRouterId : Option String
  inferredEdgeId : Option String
  lastRouterSwitchTime : ℚ
  consecutiveRouterReads : ℕ
  potentialRouterId : Option String
  totalDistance : ℚ
  totalTime : ℚ
  rerouteCount : ℕ
deriving DecidableEq, Repr

/-- Edge-entry overflow policy (`types.ts` `SimulationConfig.policy`). -/
inductive Policy where
  | queue
  | closed_when_full
deriving DecidableEq, Repr

/-- Simulation configuration (`types.ts` `SimulationConfig`).  `beta` is a
natural number (see the header note on `Math.pow`). -/
structure SimulationConfig where
  dt : ℚ
  hysteresisN : ℕ
  routerNoiseSigma : ℚ
  alpha : ℚ
  beta : ℕ
  rerouteInterval : ℚ
  truckSpeedMin : ℚ
  truckSpeedMax : ℚ
  policy : Policy
deriving DecidableEq, Repr

/-- Engine state: the mutable fields of class `SimulationEngine`.  The
TypeScript `Map<string, Node>` is modelled as a list searched by id (the
map has unique keys; lists built by the operations below keep that). -/
structure Engine where
  nodes : List Node
  edges : List Edge
  routers : List Router
  trucks : List Truck
  time : ℚ
  nextTruckId : ℕ
  completedTrips : ℕ
  totalTripTime : ℚ
  totalTripDistance : ℚ
deriving DecidableEq, Repr

/-- Lookup `this.nodes.get(id)`. -/
def findNode (nodes : List Node) (i : String) : Option Node :=
  nodes.find? (fun n => n.id == i)

/-- Lookup `this.edges.find(e => e.id === i)`. -/
def findEdge (edges : List Edge) (i : String) : Option Edge :=
  edges.find? (fun e => e.id == i)

/-- In-place mutation of the first edge with the given id (TypeScript
mutates the object returned by `edges.find`, i.e. the first match). -/
def updateFirst (edges : List Edge) (i : String) (g : Edge → Edge) : List Edge :=
  match edges with
  | [] => []
  | e :: rest => if e.id == i then g e :: rest else e :: updateFirst rest i g

/-- Function `getPointOnSegment` from `geometry.ts`. -/
def getPointOnSegment (p1 p2 : Point) (ratio : ℚ) : Point :=
  { x := p1.x + (p2.x - p1.x) * ratio, y := p1.y + (p2.y - p1.y) * ratio }

/-- Sum `|Δx| + |Δy|`: agrees with the Euclidean `distance` of `geometry.ts`
whenever the two points share a `y`-coordinate (or an `x`-coordinate); the
concrete maps in this file are all laid out on the x-axis, where the two
functions coincide, keeping runs inside `ℚ`. -/
def axisDist (p q : Point) : ℚ :=
  |q.x - p.x| + |q.y - p.y|

/-! ## Path planner (`src/services/pathfinding.ts`) -/

/-- Score-map lookup: `m.get(k) ?? Infinity`, with `none` as `Infinity`. -/
def alGet (l : List (String × ℚ)) (k : String) : Option ℚ :=
  (l.find? (fun p => p.1 == k)).map (·.2)

/-- Update `m.set(k, v)` on a score map. -/
def alSet (l : List (String × ℚ)) (k : String) (v : ℚ) : List (String × ℚ) :=
  if l.any (fun p => p.1 == k) then l.map (fun p => if p.1 == k then (k, v) else p)
  else l ++ [(k, v)]

/-- Lookup `cameFrom.get(k)`: `k ↦ (edgeId, nodeId)`. -/
def cfGet (l : List (String × String × String)) (k : String) : Option (String × String) :=
  (l.find? (fun p => p.1 == k)).map (·.2)

/-- Update `cameFrom.set(k, v)`. -/
def cfSet (l : List (String × String × String)) (k : String) (v : String × String) :
    List (String × String × String) :=
  if l.any (fun p => p.1 == k) then l.map (fun p => if p.1 == k then (k, v) else p)
  else l ++ [(k, v)]

/-- Insertion `Set.add`: JavaScript `Set` keeps insertion order and ignores
re-insertion of a present element. -/
def osAdd (l : List String) (k : String) : List String :=
  if l.contains k then l else l ++ [k]

/-- Comparison `a < b` on scores where `none` is `Infinity` (`Infinity < Infinity` is
false, `x < Infinity` is true for finite `x`). -/
def ltQ : Option ℚ → Option ℚ → Bool
  | some a, some b => a < b
  | some _, none => true
  | none, _ => false

/-- The `for (const nodeId of openSet)` argmin scan: first strictly-smaller
`fScore` wins; `current` starts as the empty string, `minF` as `Infinity`. -/
def pickCurrent (f : List (String × ℚ)) (os : List String) : String :=
  (os.foldl (fun (acc : String × Option ℚ) n =>
    let fv := alGet f n
    if ltQ fv acc.2 then (n, fv) else acc) ("", none)).1

/-- A* search state: open set, `cameFrom`, `gScore`, `fScore`. -/
structure AStar where
  openSet : List String
  cameFrom : List (String × String × String)
  gScore : List (String × ℚ)
  fScore : List (String × ℚ)

/-- The `while (cameFrom.has(curr))` loop of `reconstructPath`, with fuel.
Each TypeScript iteration visits a fresh key (revisiting a key would loop
forever), so `cameFrom.length + 1` fuel reproduces every terminating run. -/
def reconstructGo (cameFrom : List (String × String × String)) (edges : List Edge) :
    ℕ → String → List String → ℚ → List String × ℚ
  | 0, _, path, t => (path, t)
  | fu + 1, curr, path, t =>
    match cfGet cameFrom curr with
    | none => (path, t)
    | some pr =>
      let t' := match findEdge edges pr.1 with
        | some e => t + e.currentWeight
        | none => t
      reconstructGo cameFrom edges fu pr.2 (pr.1 :: path) t'

/-- Function `reconstructPath` from `pathfinding.ts`. -/
def reconstructPath (cameFrom : List (String × String × String)) (current : String)
    (edges : List Edge) : List String × ℚ :=
  reconstructGo cameFrom edges (cameFrom.length + 1) current [] 0

/-- The `while (openSet.size > 0)` loop of `findPath`, with fuel: one unit
per iteration; any terminating TypeScript run is reproduced by a large
enough fuel. -/
def aStarLoop (dist : Point → Point → ℚ) (nodes : List Node) (edges : List Edge)
    (endNodeId : String) (endNode : Node) :
    ℕ → AStar → Option (List String × ℚ)
  | 0, _ => none
  | fuel + 1, st =>
    if st.openSet.isEmpty then none
    else
      let current := pickCurrent st.fScore st.openSet
      if current == endNodeId then some (reconstructPath st.cameFrom current edges)
      else
        let st1 : AStar := { st with openSet := st.openSet.erase current }
        let neighbors := edges.filter (fun e => e.sourceId == current && !e.isClosed)
        let st2 := neighbors.foldl (fun (st : AStar) e =>
          match (alGet st.gScore current).map (· + e.currentWeight) with
          | none => st
          | some tg =>
            if ltQ (some tg) (alGet st.gScore e.targetId) then
              let h := match findNode nodes e.targetId with
                | some nn => dist nn.pos endNode.pos / e.baseSpeed
                | none => 0
              { st with cameFrom := cfSet st.cameFrom e.targetId (e.id, current),
                        gScore := alSet st.gScore e.targetId tg,
                        fScore := alSet st.fScore e.targetId (tg + h),
                        openSet := osAdd st.openSet e.targetId }
            else st) st1
        aStarLoop dist nodes edges endNodeId endNode fuel st2

/-- Function `findPath` from `pathfinding.ts` (A* with dynamic weights). -/
def findPath (fuel : ℕ) (dist : Point → Point → ℚ) (startNodeId endNodeId : String)
    (nodes : List Node) (edges : List Edge) : Option (List String × ℚ) :=
  match findNode nodes startNodeId, findNode nodes endNodeId with
  | some sn, some en =>
    aStarLoop dist nodes edges endNodeId en fuel
      { openSet := [startNodeId], cameFrom := [],
        gScore := [(startNodeId, 0)], fScore := [(startNodeId, dist sn.pos en.pos)] }
  | _, _ => none

/-! ## Engine operations (`src/services/SimulationEngine.ts`) -/

/-- Method `SimulationEngine.addEdge`: pushes the edge with no validation. -/
def addEdge (e : Edge) (s : Engine) : Engine :=
  { s with edges := s.edges ++ [e] }

/-- Method `SimulationEngine.spawnTruck`.  `rand` is the `Math.random()` sample
used for the speed draw.  All three failure guards (`!startNode`,
`!routeResult || path.length === 0`, `!firstEdge`) return the engine
unchanged, as the source does. -/
def spawnTruck (fuel : ℕ) (dist : Point → Point → ℚ) (rand : ℚ)
    (startNodeId endNodeId : String) (cfg : SimulationConfig) (s : Engine) : Engine :=
  match findNode s.nodes startNodeId with
  | none => s
  | some startNode =>
    match findPath fuel dist startNodeId endNodeId s.nodes s.edges with
    | none => s
    | some r =>
      match r.1 with
      | [] => s
      | firstId :: _ =>
        match findEdge s.edges firstId with
        | none => s
        | some firstEdge =>
          let truck : Truck :=
            { id := "T-" ++ toString s.nextTruckId
              position := startNode.pos
              currentEdgeId := some firstEdge.id
              distanceAlongEdge := 0
              speed := rand * (cfg.truckSpeedMax - cfg.truckSpeedMin) + cfg.truckSpeedMin
              state := TruckState.moving
              routePlan := r.1
              destinationNodeId := some endNodeId
              inferredRouterId := none
              inferredEdgeId := none
              lastRouterSwitchTime := 0
              consecutiveRouterReads := 0
              potentialRouterId := none
              totalDistance := 0
              totalTime := 0
              rerouteCount := 0 }
          { s with nextTruckId := s.nextTruckId + 1,
                   edges := updateFirst s.edges firstEdge.id
                     (fun e => { e with currentLoad := e.currentLoad + 1 }),
                   trucks := s.trucks ++ [truck] }

/-- One `moving` truck's motion update (the body of `tick`'s first
`forEach`): advance progress, update position, on edge completion
decrement the exited edge's load, pop the plan head, and either finish,
enter the next edge, or transition to `waiting`. -/
def moveTruck (cfg : SimulationConfig) (nodes : List Node) (edges : List Edge)
    (t : Truck) : List Edge × Truck :=
  if t.state ≠ TruckState.moving then (edges, t)
  else
    match t.currentEdgeId.bind (findEdge edges) with
    | none => (edges, { t with state := TruckState.idle })
    | some ce =>
      let moveDist := t.speed * cfg.dt
      let d := t.distanceAlongEdge + moveDist
      let t1 := { t with distanceAlongEdge := d,
                         totalDistance := t.totalDistance + moveDist,
                         totalTime := t.totalTime + cfg.dt }
      let t2 := match findNode nodes ce.sourceId, findNode nodes ce.targetId with
        | some sn, some en =>
          { t1 with position := getPointOnSegment sn.pos en.pos (min 1 (d / ce.length)) }
        | _, _ => t1
      if d ≥ ce.length then
        let edges1 := updateFirst edges ce.id
          (fun e => { e with currentLoad := max 0 (e.currentLoad - 1) })
        let plan := if t2.routePlan.head? == t2.currentEdgeId then t2.routePlan.tail
                    else t2.routePlan
        let t3 := { t2 with distanceAlongEdge := 0, routePlan := plan }
        match plan with
        | [] =>
          (edges1, { t3 with state := TruckState.finished, currentEdgeId := none })
        | nextId :: _ =>
          match findEdge edges1 nextId with
          | some ne =>
            if ne.isClosed = false ∨ cfg.policy = Policy.queue then
              (updateFirst edges1 ne.id (fun e => { e with currentLoad := e.currentLoad + 1 }),
               { t3 with currentEdgeId := some ne.id })
            else (edges1, { t3 with state := TruckState.waiting })
          | none => (edges1, { t3 with state := TruckState.waiting })
      else (edges, t2)

/-- Accumulator of the motion phase: the threaded edge list, the processed
trucks in order, and the trip-completion aggregates. -/
structure MotionAcc where
  edges : List Edge
  done : List Truck
  completed : ℕ
  tripTime : ℚ
  tripDist : ℚ

/-- One step of the motion `forEach`: process a truck, record it, and if it
just finished update `completedTrips` / `totalTripTime` /
`totalTripDistance`. -/
def motionStep (cfg : SimulationConfig) (nodes : List Node) (acc : MotionAcc)
    (t : Truck) : MotionAcc :=
  let r := moveTruck cfg nodes acc.edges t
  let fin := r.2.state = TruckState.finished ∧ t.state = TruckState.moving
  { edges := r.1
    done := acc.done ++ [r.2]
    completed := if fin then acc.completed + 1 else acc.completed
    tripTime := if fin then acc.tripTime + r.2.totalTime else acc.tripTime
    tripDist := if fin then acc.tripDist + r.2.totalDistance else acc.tripDist }

/-- Phase 1 of `tick` ("Move Trucks"). -/
def motionPhase (cfg : SimulationConfig) (s : Engine) : Engine :=
  let r := s.trucks.foldl (motionStep cfg s.nodes)
    { edges := s.edges, done := [], completed := s.completedTrips,
      tripTime := s.totalTripTime, tripDist := s.totalTripDistance }
  { s with edges := r.edges, trucks := r.done, completedTrips := r.completed,
           totalTripTime := r.tripTime, totalTripDistance := r.tripDist }

/-- Pruning `this.trucks = this.trucks.filter(t => t.state !== 'finished')`. -/
def prunePhase (s : Engine) : Engine :=
  { s with trucks := s.trucks.filter (fun t => t.state ≠ TruckState.finished) }

/-- The per-reading argmin over beacons: noisy distance to every router,
strictly-smaller wins, `minD` starts at `Infinity` (`none`).  `nz i` is the
Gaussian sample for router index `i`; the source only draws it when
`routerNoiseSigma > 0`. -/
def nearestRouterId (dist : Point → Point → ℚ) (nz : ℕ → ℚ) (sigma : ℚ)
    (routers : List Router) (pos : Point) : Option String :=
  (routers.enum.foldl (fun (acc : Option ℚ × Option String) p =>
    let noiseV := if sigma > 0 then nz p.1 else 0
    let d := dist pos p.2.pos + noiseV
    if ltQ (some d) acc.1 then (some d, some p.2.id) else acc) (none, none)).2

/-- The hysteresis block of `tick`'s localization phase, for one truck and
one instantaneous candidate.  Note the source does *not* reset
`consecutiveRouterReads` or `potentialRouterId` when it commits. -/
def hysteresisStep (routers : List Router) (time : ℚ) (n : ℕ) (t : Truck)
    (cand : Option String) : Truck :=
  match cand with
  | none => t
  | some c =>
    if t.inferredRouterId ≠ some c then
      let t1 := if t.potentialRouterId = some c then
          { t with consecutiveRouterReads := t.consecutiveRouterReads + 1 }
        else
          { t with potentialRouterId := some c, consecutiveRouterReads := 1 }
      if t1.consecutiveRouterReads ≥ n then
        let t2 := { t1 with inferredRouterId := some c, lastRouterSwitchTime := time }
        match routers.find? (fun r => r.id == c) with
        | some r =>
          match r.mappedEdgeIds with
          | [] => t2
          | e :: _ => { t2 with inferredEdgeId := some e }
        | none => t2
      else t1
    else { t with consecutiveRouterReads := 0, potentialRouterId := none }

/-- The localization `forEach` with its running truck index (used to look
up the noise table). -/
def locList (dist : Point → Point → ℚ) (noise : ℕ → ℕ → ℚ) (cfg : SimulationConfig)
    (routers : List Router) (time : ℚ) : ℕ → List Truck → List Truck
  | _, [] => []
  | i, t :: ts =>
    (if t.state = TruckState.finished then t
     else hysteresisStep routers time cfg.hysteresisN t
       (nearestRouterId dist (noise i) cfg.routerNoiseSigma routers t.position)) ::
    locList dist noise cfg routers time (i + 1) ts

/-- Phase 2 of `tick` ("Wi-Fi Localization"). -/
def localizationPhase (dist : Point → Point → ℚ) (noise : ℕ → ℕ → ℚ)
    (cfg : SimulationConfig) (s : Engine) : Engine :=
  { s with trucks := locList dist noise cfg s.routers s.time 0 s.trucks }

/-- The congestion formula `T0 * (1 + alpha * (n / C)^beta)` applied to an
edge's stored load (`tick` phase 3 body). -/
def congestionWeight (cfg : SimulationConfig) (e : Edge) : ℚ :=
  e.baseTravelTime * (1 + cfg.alpha * (e.currentLoad / e.capacity) ^ cfg.beta)

/-- Phase 3 of `tick` ("Update Edge Weights"). -/
def congestionPhase (cfg : SimulationConfig) (s : Engine) : Engine :=
  { s with edges := s.edges.map (fun e => { e with currentWeight := congestionWeight cfg e }) }

/-- JavaScript `%` on the non-negative operands used by `tick` (for
`a, b ≥ 0` the truncated and floored remainders coincide; `b = 0` never
occurs with a sane `rerouteInterval`). -/
def jsMod (a b : ℚ) : ℚ :=
  a - b * (⌊a / b⌋ : ℤ)

/-- The per-truck body of `tick`'s rerouting phase: moving trucks with a
destination and a live current edge re-plan from the current edge's target;
on success the plan becomes `[currentEdge] + newPath` and the reroute
counter increments; on failure the truck is untouched. -/
def rerouteOne (fuel : ℕ) (dist : Point → Point → ℚ) (nodes : List Node)
    (edges : List Edge) (t : Truck) : Truck :=
  if t.state = TruckState.moving then
    match t.destinationNodeId, t.currentEdgeId with
    | some dst, some ceid =>
      match findEdge edges ceid with
      | some ce =>
        match findPath fuel dist ce.targetId dst nodes edges with
        | some r => { t with routePlan := ceid :: r.1, rerouteCount := t.rerouteCount + 1 }
        | none => t
      | none => t
    | _, _ => t
  else t

/-- Phase 4 of `tick` ("Rerouting"), guarded by the periodic boundary test
`time % rerouteInterval < dt`. -/
def reroutePhase (fuel : ℕ) (dist : Point → Point → ℚ) (cfg : SimulationConfig)
    (s : Engine) : Engine :=
  if jsMod s.time cfg.rerouteInterval < cfg.dt then
    { s with trucks := s.trucks.map (rerouteOne fuel dist s.nodes s.edges) }
  else s

/-- Method `SimulationEngine.tick`: advance time, then motion, pruning,
localization, congestion, rerouting, in the source's order. -/
def tick (fuel : ℕ) (dist : Point → Point → ℚ) (noise : ℕ → ℕ → ℚ)
    (cfg : SimulationConfig) (s : Engine) : Engine :=
  let s1 := { s with time := s.time + cfg.dt }
  reroutePhase fuel dist cfg
    (congestionPhase cfg (localizationPhase dist noise cfg (prunePhase (motionPhase cfg s1))))

/-- Iterate `n` consecutive ticks; `noises k` is tick number `k` noise table. -/
def ticks (fuel : ℕ) (dist : Point → Point → ℚ) (noises : ℕ → ℕ → ℕ → ℚ)
    (cfg : SimulationConfig) : ℕ → Engine → Engine
  | 0, s => s
  | k + 1, s => ticks fuel dist (fun j => noises (j + 1)) cfg k (tick fuel dist (noises 0) cfg s)

/-! ## Derived notions used by the statements -/

/-- Indicator: 1 if `t` is a `moving` truck currently on edge id `i`, else 0. -/
def cnt (t : Truck) (i : String) : ℕ :=
  if t.state = TruckState.moving ∧ t.currentEdgeId = some i then 1 else 0

/-- Number of `moving` trucks whose current edge is `i`. -/
def countMovingOn (l : List Truck) (i : String) : ℕ :=
  (l.map (fun t => cnt t i)).sum

/-- Number of trucks (any state) whose current edge is `i`. -/
def countOn (l : List Truck) (i : String) : ℕ :=
  (l.map (fun t => if t.currentEdgeId = some i then 1 else 0)).sum

/-- The spec's §8 load invariant, read literally: every edge's
`currentLoad` equals the number of active (present) trucks whose current
edge is that edge. -/
def ActiveLoadInv (s : Engine) : Prop :=
  ∀ e ∈ s.edges, e.currentLoad = (countOn s.trucks e.id : ℚ)

/-- The load invariant restricted to trucks in the `moving` state. -/
def MovingLoadInv (edges : List Edge) (trucks : List Truck) : Prop :=
  ∀ e ∈ edges, e.currentLoad = (countMovingOn trucks e.id : ℚ)

/-- Sum of the `currentWeight` of each edge id's (first) edge along a
path, exactly as `reconstructPath` accumulates it. -/
def pathWeight (edges : List Edge) (p : List String) : ℚ :=
  (p.map (fun eid => match findEdge edges eid with
    | some e => e.currentWeight
    | none => 0)).sum

/-- Check that `p` is a chain of existing, non-closed edges from node `s` to node
`g`: consecutive edges are adjacent, the first leaves `s`, the last enters
`g`. -/
def validOpenPathB (edges : List Edge) : String → String → List String → Bool
  | s, g, [] => s == g
  | s, g, eid :: rest =>
    match findEdge edges eid with
    | some e => e.sourceId == s && !e.isClosed && validOpenPathB edges e.targetId g rest
    | none => false

/-! ## Concrete fixtures -/

/-- Zero noise table (all Gaussian samples 0, e.g. `sigma = 0`). -/
def noNoise : ℕ → ℕ → ℚ := fun _ _ => 0

/-- Default-like configuration with deterministic localization and a long
reroute interval (used where rerouting is not under test). -/
def cfgA : SimulationConfig :=
  { dt := 1, hysteresisN := 3, routerNoiseSigma := 0, alpha := 1, beta := 2,
    rerouteInterval := 1000, truckSpeedMin := 1, truckSpeedMax := 1,
    policy := Policy.closed_when_full }

/-- A fresh truck record used as a base for fixtures. -/
def baseTruck : Truck :=
  { id := "T-1", position := { x := 0, y := 0 }, currentEdgeId := none,
    distanceAlongEdge := 0, speed := 1, state := TruckState.moving,
    routePlan := [], destinationNodeId := none, inferredRouterId := none,
    inferredEdgeId := none, lastRouterSwitchTime := 0,
    consecutiveRouterReads := 0, potentialRouterId := none,
    totalDistance := 0, totalTime := 0, rerouteCount := 0 }

/-- Three collinear nodes used by the load-invariant fixture. -/
def nodesLine : List Node :=
  [ { id := "n1", label := "A", pos := { x := 0, y := 0 } },
    { id := "n2", label := "B", pos := { x := 10, y := 0 } },
    { id := "n3", label := "C", pos := { x := 20, y := 0 } } ]

/-- An open edge `n1→n2` carrying one truck, followed by a closed edge
`n2→n3`. -/
def edgesBlocked : List Edge :=
  [ { id := "e1", sourceId := "n1", targetId := "n2", length := 10, capacity := 2,
      baseSpeed := 1, baseTravelTime := 10, currentLoad := 1, currentWeight := 10,
      isClosed := false },
    { id := "e2", sourceId := "n2", targetId := "n3", length := 10, capacity := 1,
      baseSpeed := 1, baseTravelTime := 10, currentLoad := 0, currentWeight := 10,
      isClosed := true } ]

/-- One moving truck about to complete `e1`, whose next planned edge `e2`
is closed: this tick it exits `e1` (load decremented) and transitions to
`waiting` while its current edge stays `e1`. -/
def engineBlocked : Engine :=
  { nodes := nodesLine, edges := edgesBlocked, routers := [],
    trucks := [ { baseTruck with
                    currentEdgeId := some "e1",
                    distanceAlongEdge := 19/2,
                    routePlan := ["e1", "e2"],
                    destinationNodeId := some "n3" } ],
    time := 0, nextTruckId := 2, completedTrips := 0, totalTripTime := 0,
    totalTripDistance := 0 }

/-- The A* fixture: collinear nodes `S (0,0)`, `M (10,0)`, `G (110,0)`.
All points share `y = 0`, so `axisDist` equals the source's Euclidean
distance on this map. -/
def nodesAStar : List Node :=
  [ { id := "S", label := "start", pos := { x := 0, y := 0 } },
    { id := "M", label := "mid", pos := { x := 10, y := 0 } },
    { id := "G", label := "goal", pos := { x := 110, y := 0 } } ]

/-- Edges for the A* fixture.  Every edge is open and self-consistent
(`baseTravelTime = length / baseSpeed`, `currentWeight = baseTravelTime`,
zero load), yet the heuristic `distance(M,G) / e2.baseSpeed = 100`
overestimates the true remaining cost `1/2` because it divides by the slow
*incoming* edge's speed, not the speed of the fast edge ahead. -/
def edgesAStar : List Edge :=
  [ { id := "e1", sourceId := "S", targetId := "G", length := 110, capacity := 5,
      baseSpeed := 10, baseTravelTime := 11, currentLoad := 0, currentWeight := 11,
      isClosed := false },
    { id := "e2", sourceId := "S", targetId := "M", length := 10, capacity := 5,
      baseSpeed := 1, baseTravelTime := 10, currentLoad := 0, currentWeight := 10,
      isClosed := false },
    { id := "e3", sourceId := "M", targetId := "G", length := 100, capacity := 5,
      baseSpeed := 200, baseTravelTime := 1/2, currentLoad := 0, currentWeight := 1/2,
      isClosed := false } ]

/-- Decidability of the literal load invariant (for concrete engines). -/
instance (s : Engine) : Decidable (ActiveLoadInv s) :=
  inferInstanceAs (Decidable (∀ e ∈ s.edges, e.currentLoad = (countOn s.trucks e.id : ℚ)))

/-- Decidability of the moving-truck load invariant (for concrete engines). -/
instance (edges : List Edge) (trucks : List Truck) : Decidable (MovingLoadInv edges trucks) :=
  inferInstanceAs (Decidable (∀ e ∈ edges, e.currentLoad = (countMovingOn trucks e.id : ℚ)))


/-- Variant of the blocked fixture with every edge open. -/
def edgesOpenLine : List Edge :=
  [ { id := "e1", sourceId := "n1", targetId := "n2", length := 10, capacity := 2,
      baseSpeed := 1, baseTravelTime := 10, currentLoad := 1, currentWeight := 10,
      isClosed := false },
    { id := "e2", sourceId := "n2", targetId := "n3", length := 10, capacity := 1,
      baseSpeed := 1, baseTravelTime := 10, currentLoad := 0, currentWeight := 10,
      isClosed := false } ]

/-- Engine at a re-plan boundary (time 1, interval 1) with one moving
truck on the open two-edge line. -/
def engineReplan : Engine :=
  { engineBlocked with time := 1, edges := edgesOpenLine }

/-- Configuration whose re-plan boundary test passes at time 1. -/
def cfgFast : SimulationConfig :=
  { cfgA with rerouteInterval := 1 }


/-- Search-wide invariant of the `cameFrom` map: every recorded entry
`node ↦ (edgeId, prevNode)` was produced by relaxing an existing,
non-closed edge from `prevNode` into `node`. -/
def InvCF (edges : List Edge) (cf : List (String × String × String)) : Prop :=
  ∀ x ∈ cf, ∃ e ∈ edges, e.id = x.2.1 ∧ e.sourceId = x.2.2 ∧ e.targetId = x.1 ∧
    e.isClosed = false


/-- A truck already in the `waiting` state (blocked in front of the closed
edge of the fixture). -/
def waitingTruck : Truck :=
  { baseTruck with
    state := TruckState.waiting,
    currentEdgeId := some "e1",
    routePlan := ["e2"],
    destinationNodeId := some "n3" }

/-- Engine fixture holding a single waiting truck. -/
def engineWaiting : Engine :=
  { engineBlocked with trucks := [waitingTruck] }

/-! ## Theorems -/

/-- Claim C9, counterexample: `addEdge` admits an edge whose capacity is 0;
the engine then stores an edge of capacity 0, contradicting the claim that
every stored edge has capacity at least 1. -/
theorem c9_counterexample :
    ∃ e ∈ (addEdge
      { id := "z", sourceId := "n1", targetId := "n2", length := 1, capacity := 0,
        baseSpeed := 1, baseTravelTime := 1, currentLoad := 0, currentWeight := 1,
        isClosed := false } engineBlocked).edges, e.capacity = 0 := by
  decide

/-- Claim C9 (amended): `addEdge` performs no validation whatsoever; any
edge, including one of capacity 0, is appended to the engine's edge list,
so callers must guarantee capacity is at least 1 themselves. -/
theorem c9_addEdge_unvalidated (e : Edge) (s : Engine) :
    e ∈ (addEdge e s).edges ∧ (addEdge e s).edges = s.edges ++ [e] := by
  constructor
  · simp [addEdge]
  · rfl

/-- Effect of one hysteresis reading that matches the current inferred
beacon: the pending state is cleared. -/
theorem hys_reset (routers : List Router) (time : ℚ) (n : ℕ) (t : Truck) (c : String)
    (h : t.inferredRouterId = some c) :
    hysteresisStep routers time n t (some c) =
      { t with consecutiveRouterReads := 0, potentialRouterId := none } := by
  simp [hysteresisStep, h]

/-- Effect of a reading of a fresh candidate (differing from both the
inferred and the pending beacon) that does not reach the threshold. -/
theorem hys_pending_new (routers : List Router) (time : ℚ) (n : ℕ) (t : Truck) (c : String)
    (hni : t.inferredRouterId ≠ some c) (hp : t.potentialRouterId ≠ some c)
    (hn : ¬ (1 ≥ n)) :
    hysteresisStep routers time n t (some c) =
      { t with potentialRouterId := some c, consecutiveRouterReads := 1 } := by
  simp [hysteresisStep, hni, hp, hn]

/-- Effect of a reading matching the pending candidate that does not reach
the threshold: only the count moves. -/
theorem hys_pending_inc (routers : List Router) (time : ℚ) (n : ℕ) (t : Truck) (c : String)
    (hni : t.inferredRouterId ≠ some c) (hp : t.potentialRouterId = some c)
    (hn : ¬ (t.consecutiveRouterReads + 1 ≥ n)) :
    hysteresisStep routers time n t (some c) =
      { t with consecutiveRouterReads := t.consecutiveRouterReads + 1 } := by
  simp [hysteresisStep, hni, hp, hn]


/-- Effect of a committing reading (candidate equals pending, differs from
inferred, threshold reached): inferred beacon, switch time and count are
updated; the inferred edge follows the beacon's mapping head if present. -/
theorem hys_commit (routers : List Router) (time : ℚ) (n : ℕ) (t : Truck) (c : String)
    (hni : t.inferredRouterId ≠ some c) (hp : t.potentialRouterId = some c)
    (hn : t.consecutiveRouterReads + 1 ≥ n) :
    hysteresisStep routers time n t (some c) =
      (let base := { t with consecutiveRouterReads := t.consecutiveRouterReads + 1,
                            inferredRouterId := some c, lastRouterSwitchTime := time }
       match routers.find? (fun r => r.id == c) with
       | some r =>
         match r.mappedEdgeIds with
         | [] => base
         | e :: _ => { base with inferredEdgeId := some e }
       | none => base) := by
  simp only [hysteresisStep, hni, hp]
  simp only [ne_eq, not_false_iff, if_true, if_pos, hn]
  split <;> simp_all

/-- Claim C3 (amended): see RESULTS. -/
theorem c3_hysteresis_pending_commit (routers : List Router) (time : ℚ) (n : ℕ)
    (t : Truck) (c : String)
    (hni : t.inferredRouterId ≠ some c) (hp : t.potentialRouterId = some c) :
    (hysteresisStep routers time n t (some c)).consecutiveRouterReads =
        t.consecutiveRouterReads + 1 ∧
    (t.consecutiveRouterReads + 1 ≥ n →
      (hysteresisStep routers time n t (some c)).inferredRouterId = some c ∧
      (hysteresisStep routers time n t (some c)).lastRouterSwitchTime = time ∧
      (hysteresisStep routers time n t (some c)).inferredEdgeId =
        (match routers.find? (fun r => r.id == c) with
          | some r => match r.mappedEdgeIds with
            | [] => t.inferredEdgeId
            | e :: _ => some e
          | none => t.inferredEdgeId)) ∧
    (¬ (t.consecutiveRouterReads + 1 ≥ n) →
      (hysteresisStep routers time n t (some c)).inferredRouterId = t.inferredRouterId ∧
      (hysteresisStep routers time n t (some c)).inferredEdgeId = t.inferredEdgeId ∧
      (hysteresisStep routers time n t (some c)).lastRouterSwitchTime =
        t.lastRouterSwitchTime) := by
  by_cases hn : t.consecutiveRouterReads + 1 ≥ n
  · rw [hys_commit routers time n t c hni hp hn]
    refine ⟨?_, fun _ => ⟨?_, ?_, ?_⟩, fun hc => absurd hn hc⟩ <;>
      (split <;> (try split) <;> simp_all)
  · rw [hys_pending_inc routers time n t c hni hp hn]
    exact ⟨rfl, fun hc => absurd hc hn, fun _ => ⟨rfl, rfl, rfl⟩⟩

/-- Claim C3, counterexample: with threshold 3, a truck whose inferred
beacon is A, pending candidate B with count 2, reading B: the filter
commits to B, but the pending count is 3 afterwards, not reset. -/
theorem c3_counterexample :
    (hysteresisStep [] 7 3
      { baseTruck with inferredRouterId := some "A", potentialRouterId := some "B",
                       consecutiveRouterReads := 2 }
      (some "B")).inferredRouterId = some "B" ∧
    ¬ ((hysteresisStep [] 7 3
      { baseTruck with inferredRouterId := some "A", potentialRouterId := some "B",
                       consecutiveRouterReads := 2 }
      (some "B")).consecutiveRouterReads = 0) := by
  decide

/-- Claim C6: with threshold 3, starting from any filter state whose
inferred beacon differs from B, the candidate sequence A,B,B,B commits the
inferred beacon to B exactly at the third consecutive B (the fourth
reading), and at no earlier prefix is the inferred beacon B. -/
theorem c6_hysteresis_three_commits (routers : List Router) (time : ℚ) (t0 : Truck)
    (A B : String) (hAB : A ≠ B) (h0 : t0.inferredRouterId ≠ some B) :
    ((hysteresisStep routers time 3
      (hysteresisStep routers time 3
        (hysteresisStep routers time 3
          (hysteresisStep routers time 3 t0 (some A)) (some B)) (some B)) (some B)).inferredRouterId
        = some B) ∧
    (hysteresisStep routers time 3
      (hysteresisStep routers time 3
        (hysteresisStep routers time 3 t0 (some A)) (some B)) (some B)).inferredRouterId ≠ some B ∧
    (hysteresisStep routers time 3
      (hysteresisStep routers time 3 t0 (some A)) (some B)).inferredRouterId ≠ some B ∧
    (hysteresisStep routers time 3 t0 (some A)).inferredRouterId ≠ some B := by
  -- Step 1 analysis: after reading A the inferred beacon is not B and the
  -- pending candidate is not B.
  set t1 := hysteresisStep routers time 3 t0 (some A) with ht1
  have h1 : t1.inferredRouterId ≠ some B ∧ t1.potentialRouterId ≠ some B := by
    by_cases hA : t0.inferredRouterId = some A
    · rw [ht1, hys_reset routers time 3 t0 A hA]
      refine ⟨?_, by simp⟩
      simpa [hA] using hAB
    · by_cases hpA : t0.potentialRouterId = some A
      · by_cases hcnt : t0.consecutiveRouterReads + 1 ≥ 3
        · rw [ht1, hys_commit routers time 3 t0 A hA hpA hcnt]
          constructor <;> (split <;> (try split) <;> simp_all)
        · rw [ht1, hys_pending_inc routers time 3 t0 A hA hpA hcnt]
          refine ⟨h0, ?_⟩
          simpa [hpA] using hAB
      · rw [ht1, hys_pending_new routers time 3 t0 A hA hpA (by omega)]
        refine ⟨h0, ?_⟩
        simpa using hAB
  -- Step 2: pending becomes B with count 1, no commit.
  have e2 : hysteresisStep routers time 3 t1 (some B) =
      { t1 with potentialRouterId := some B, consecutiveRouterReads := 1 } :=
    hys_pending_new routers time 3 t1 B h1.1 h1.2 (by omega)
  -- Step 3: count 2, no commit.
  have e3 : hysteresisStep routers time 3
      { t1 with potentialRouterId := some B, consecutiveRouterReads := 1 } (some B) =
      { t1 with potentialRouterId := some B, consecutiveRouterReads := 2 } := by
    have := hys_pending_inc routers time 3
      { t1 with potentialRouterId := some B, consecutiveRouterReads := 1 } B
      (by simpa using h1.1) (by simp) (by simp)
    simpa using this
  -- Step 4: count 3, commit.
  have e4 := hys_commit routers time 3
      { t1 with potentialRouterId := some B, consecutiveRouterReads := 2 } B
      (by simpa using h1.1) (by simp) (by simp)
  refine ⟨?_, ?_, ?_, h1.1⟩
  · rw [e2, e3, e4]
    split <;> (try split) <;> simp
  · rw [e2, e3]; simpa using h1.1
  · rw [e2]; simpa using h1.1

/-- Witness for C3 at a concrete input: inferred A, pending B with count 2,
threshold 3, reading B increments the count to 3. -/
theorem c3_hysteresis_pending_commit_witness :
    (hysteresisStep [] 7 3
      { baseTruck with inferredRouterId := some "A", potentialRouterId := some "B",
                       consecutiveRouterReads := 2 }
      (some "B")).consecutiveRouterReads = 2 + 1 :=
  (c3_hysteresis_pending_commit [] 7 3
    { baseTruck with inferredRouterId := some "A", potentialRouterId := some "B",
                     consecutiveRouterReads := 2 }
    "B" (by decide) (by decide)).1

/-- Witness for C6 at a concrete input: a fresh truck processing the
candidate sequence A,B,B,B commits to B. -/
theorem c6_hysteresis_three_commits_witness :
    (hysteresisStep [] 5 3
      (hysteresisStep [] 5 3
        (hysteresisStep [] 5 3
          (hysteresisStep [] 5 3 baseTruck (some "A")) (some "B")) (some "B"))
      (some "B")).inferredRouterId = some "B" :=
  (c6_hysteresis_three_commits [] 5 baseTruck "A" "B" (by decide) (by decide)).1

/-- Claim C8: whenever one of the spawn guards fails — unknown start node,
planner failure (including unknown destination, which makes `findPath`
return failure), an empty returned path, or a first planned edge that is
not in the edge list — `spawnTruck` returns the engine state completely
unchanged: no truck is created, no load or counter moves. -/
theorem c8_spawn_failure_no_change (fuel : ℕ) (dist : Point → Point → ℚ) (rand : ℚ)
    (startNodeId endNodeId : String) (cfg : SimulationConfig) (s : Engine)
    (h : findNode s.nodes startNodeId = none ∨
         findPath fuel dist startNodeId endNodeId s.nodes s.edges = none ∨
         (∃ r, findPath fuel dist startNodeId endNodeId s.nodes s.edges = some r ∧
           (r.1 = [] ∨ ∃ e0 tl, r.1 = e0 :: tl ∧ findEdge s.edges e0 = none))) :
    spawnTruck fuel dist rand startNodeId endNodeId cfg s = s := by
  unfold spawnTruck
  rcases h with h | h | ⟨r, hr, hfail⟩
  · rw [h]
  · cases hfn : findNode s.nodes startNodeId <;> simp [h]
  · cases hfn : findNode s.nodes startNodeId
    · rfl
    · rw [hr]
      rcases hfail with hnil | ⟨e0, tl, hcons, hne⟩
      · simp [hnil]
      · simp [hcons, hne]

/-- Witness for C8: spawning between unknown nodes on the blocked fixture
leaves the engine untouched. -/
theorem c8_spawn_failure_no_change_witness :
    spawnTruck 5 axisDist 0 "nope" "n3" cfgA engineBlocked = engineBlocked :=
  c8_spawn_failure_no_change 5 axisDist 0 "nope" "n3" cfgA engineBlocked
    (Or.inl (by decide))

/-- Helper: rerouting leaves the edge list untouched. -/
theorem reroutePhase_edges (fuel : ℕ) (dist : Point → Point → ℚ)
    (cfg : SimulationConfig) (s : Engine) :
    (reroutePhase fuel dist cfg s).edges = s.edges := by
  unfold reroutePhase
  split <;> rfl

/-- Claim C4: after every tick, each edge's dynamic weight equals
`T0 * (1 + alpha * (n / C)^beta)` computed from that edge's own stored
load, and the stored loads after the tick are exactly the post-motion
loads (the localization, congestion and rerouting phases never change a
load), so the weight of every edge is recomputed each tick from the load
measured after the motion phase. -/
theorem c4_congestion_recompute (fuel : ℕ) (dist : Point → Point → ℚ)
    (noise : ℕ → ℕ → ℚ) (cfg : SimulationConfig) (s : Engine) :
    ((tick fuel dist noise cfg s).edges.map (fun e => (e.id, e.currentLoad)) =
      (prunePhase (motionPhase cfg { s with time := s.time + cfg.dt })).edges.map
        (fun e => (e.id, e.currentLoad))) ∧
    ∀ e ∈ (tick fuel dist noise cfg s).edges,
      e.currentWeight =
        e.baseTravelTime * (1 + cfg.alpha * (e.currentLoad / e.capacity) ^ cfg.beta) := by
  constructor
  · rw [tick, reroutePhase_edges]
    simp [congestionPhase, localizationPhase, prunePhase, List.map_map, Function.comp]
  · intro e he
    rw [tick, reroutePhase_edges] at he
    simp only [congestionPhase, localizationPhase, List.mem_map] at he
    obtain ⟨e0, _, rfl⟩ := he
    simp [congestionWeight]

/-- Claim C5: when the re-plan boundary test passes, every moving truck
with a destination and a live current edge is processed by the planner
from the current edge's target: on success its remaining plan becomes
`[currentEdge] + newPath` and its reroute counter is incremented
unconditionally; on planner failure the truck (its plan included) is left
completely unchanged. -/
theorem c5_replan_update (fuel : ℕ) (dist : Point → Point → ℚ) (cfg : SimulationConfig)
    (s : Engine) (hrun : jsMod s.time cfg.rerouteInterval < cfg.dt)
    (i : ℕ) (hi : i < s.trucks.length)
    (dst ceid : String) (ce : Edge)
    (hm : s.trucks[i].state = TruckState.moving)
    (hd : s.trucks[i].destinationNodeId = some dst)
    (hc : s.trucks[i].currentEdgeId = some ceid)
    (hce : findEdge s.edges ceid = some ce)
    (hi2 : i < (reroutePhase fuel dist cfg s).trucks.length) :
    (reroutePhase fuel dist cfg s).trucks[i] =
      (match findPath fuel dist ce.targetId dst s.nodes s.edges with
        | some r => { s.trucks[i] with
                      routePlan := ceid :: r.1,
                      rerouteCount := s.trucks[i].rerouteCount + 1 }
        | none => s.trucks[i]) := by
  simp only [reroutePhase, if_pos hrun] at hi2 ⊢
  rw [List.getElem_map]
  rw [rerouteOne, if_pos hm, hd, hc]
  simp [hce]


/-- Witness for C5 at a concrete input: at a re-plan boundary the moving
truck's plan is rewritten to current edge plus the fresh path (here equal
to the old plan) and the reroute counter is incremented regardless. -/
theorem c5_replan_update_witness :
    (reroutePhase 9 axisDist cfgFast engineReplan).trucks.get
        ⟨0, by with_unfolding_all decide⟩ =
      { engineReplan.trucks.get ⟨0, by with_unfolding_all decide⟩ with
        routePlan := ["e1", "e2"],
        rerouteCount := 1 } := by
  have h := c5_replan_update 9 axisDist cfgFast engineReplan
    (by with_unfolding_all decide) 0 (by with_unfolding_all decide) "n3" "e1"
    { id := "e1", sourceId := "n1", targetId := "n2", length := 10, capacity := 2,
      baseSpeed := 1, baseTravelTime := 10, currentLoad := 1, currentWeight := 10,
      isClosed := false }
    (by with_unfolding_all decide) (by with_unfolding_all decide)
    (by with_unfolding_all decide) (by with_unfolding_all decide)
    (by with_unfolding_all decide)
  rw [List.get_eq_getElem, h]
  with_unfolding_all decide

/-- Claim C1, counterexample: on the blocked fixture the truck completes
its edge and transitions to `waiting`; the exited edge's load is
decremented while the still-active waiting truck's current edge remains
that edge, so immediately after the motion phase (and still after the full
tick) the literal load invariant fails. -/
theorem c1_counterexample :
    ¬ ActiveLoadInv (prunePhase (motionPhase cfgA
        { engineBlocked with time := engineBlocked.time + cfgA.dt })) ∧
    ¬ ActiveLoadInv (tick 5 axisDist noNoise cfgA engineBlocked) := by
  constructor <;> with_unfolding_all decide

/-- Under distinct edge ids, looking an edge's own id up finds it. -/
theorem findEdge_eq_of_mem (edges : List Edge) (e : Edge)
    (hnd : (edges.map (fun x => x.id)).Nodup) (he : e ∈ edges) :
    findEdge edges e.id = some e := by
  induction edges with
  | nil => cases he
  | cons h tl ih =>
    simp only [List.map_cons, List.nodup_cons, List.mem_map] at hnd
    rcases List.mem_cons.1 he with rfl | htl
    · simp [findEdge]
    · have hne : h.id ≠ e.id := fun hh => hnd.1 ⟨e, htl, hh.symm⟩
      have hb : (h.id == e.id) = false := by simpa using hne
      simp only [findEdge, List.find?_cons, hb]
      exact ih hnd.2 htl

/-- Entries read from `cameFrom` are entries of the underlying list. -/
theorem cfGet_mem (l : List (String × String × String)) (k : String)
    (pr : String × String) (h : cfGet l k = some pr) : (k, pr) ∈ l := by
  unfold cfGet at h
  cases hf : l.find? (fun p => p.1 == k) with
  | none => rw [hf] at h; cases h
  | some p =>
    rw [hf] at h
    have hp := List.mem_of_find?_eq_some hf
    have hk := List.find?_some hf
    have h2 : p.2 = pr := by simpa using h
    have h1 : p.1 = k := by simpa using hk
    have hpk : p = (k, pr) := by
      cases p
      simp_all
    rw [← hpk]
    exact hp

/-- Setting a `cameFrom` entry only adds the written binding. -/
theorem cfSet_subset (l : List (String × String × String)) (k : String)
    (v : String × String) (x : String × String × String)
    (hx : x ∈ cfSet l k v) : x ∈ l ∨ x = (k, v) := by
  unfold cfSet at hx
  split at hx
  · rcases List.mem_map.1 hx with ⟨y, hy, hxy⟩
    by_cases hk : (y.1 == k) = true
    · rw [if_pos hk] at hxy; exact Or.inr hxy.symm
    · rw [if_neg hk] at hxy; exact Or.inl (hxy ▸ hy)
  · rcases List.mem_append.1 hx with hl | hr
    · exact Or.inl hl
    · exact Or.inr (by simpa using hr)

/-- The neighbor-relaxation fold preserves the `cameFrom` invariant, given
that every folded edge is an existing, non-closed edge out of `current`. -/
theorem foldRelax_invCF (dist : Point → Point → ℚ) (nodes : List Node)
    (edges : List Edge) (endNode : Node) (current : String)
    (ns : List Edge)
    (hns : ∀ e ∈ ns, e ∈ edges ∧ e.sourceId = current ∧ e.isClosed = false) :
    ∀ st : AStar, InvCF edges st.cameFrom →
      InvCF edges ((ns.foldl (fun (st : AStar) e =>
        match (alGet st.gScore current).map (· + e.currentWeight) with
        | none => st
        | some tg =>
          if ltQ (some tg) (alGet st.gScore e.targetId) then
            let h := match findNode nodes e.targetId with
              | some nn => dist nn.pos endNode.pos / e.baseSpeed
              | none => 0
            { st with cameFrom := cfSet st.cameFrom e.targetId (e.id, current),
                      gScore := alSet st.gScore e.targetId tg,
                      fScore := alSet st.fScore e.targetId (tg + h),
                      openSet := osAdd st.openSet e.targetId }
          else st) st).cameFrom) := by
  induction ns with
  | nil => intro st h; exact h
  | cons e tl ih =>
    intro st h
    simp only [List.foldl_cons]
    apply ih (fun x hx => hns x (List.mem_cons_of_mem e hx))
    obtain ⟨he, hsrc, hcl⟩ := hns e (List.mem_cons_self e tl)
    cases hg : (alGet st.gScore current).map (· + e.currentWeight) with
    | none => simpa [hg] using h
    | some tg =>
      simp only [hg]
      split
      · intro x hx
        rcases cfSet_subset st.cameFrom e.targetId (e.id, current) x hx with hold | rfl
        · exact h x hold
        · exact ⟨e, he, rfl, hsrc.symm ▸ rfl, rfl, hcl⟩
      · exact h

/-- Any successful A* search result is a path reconstruction from a
`cameFrom` map satisfying the search invariant, rooted at the goal. -/
theorem aStarLoop_sound (dist : Point → Point → ℚ) (nodes : List Node)
    (edges : List Edge) (goal : String) (gn : Node) :
    ∀ (fuel : ℕ) (st : AStar), InvCF edges st.cameFrom →
      ∀ r, aStarLoop dist nodes edges goal gn fuel st = some r →
        ∃ cf, InvCF edges cf ∧ r = reconstructPath cf goal edges := by
  intro fuel
  induction fuel with
  | zero => intro st _ r hr; cases hr
  | succ fu ih =>
    intro st hst r hr
    rw [aStarLoop] at hr
    by_cases hemp : st.openSet.isEmpty
    · rw [if_pos hemp] at hr; cases hr
    · rw [if_neg hemp] at hr
      by_cases hcur : (pickCurrent st.fScore st.openSet == goal) = true
      · rw [if_pos hcur] at hr
        refine ⟨st.cameFrom, hst, ?_⟩
        have : pickCurrent st.fScore st.openSet = goal := by simpa using hcur
        rw [← this]
        exact (Option.some_inj.1 hr).symm
      · rw [if_neg hcur] at hr
        refine ih _ ?_ r hr
        exact foldRelax_invCF dist nodes edges gn (pickCurrent st.fScore st.openSet)
          (edges.filter (fun e => e.sourceId == pickCurrent st.fScore st.openSet && !e.isClosed))
          (fun e he => by
            have hm := List.mem_filter.1 he
            refine ⟨hm.1, ?_, ?_⟩
            · have := hm.2
              simp only [Bool.and_eq_true, beq_iff_eq] at this
              exact this.1
            · have := hm.2
              simp only [Bool.and_eq_true, Bool.not_eq_eq_eq_not, Bool.not_true] at this
              simpa using this.2)
          _ hst

/-- Reconstruction specification: starting from a partial chain `acc`
running from `curr` to the goal, `reconstructGo` extends it to a chain
from some node to the goal and accounts every prepended edge's weight in
its accumulated total. -/
theorem reconstructGo_spec (cf : List (String × String × String)) (edges : List Edge)
    (goal : String) (hnd : (edges.map (fun x => x.id)).Nodup) (hcf : InvCF edges cf) :
    ∀ (fu : ℕ) (curr : String) (acc : List String) (t : ℚ),
      validOpenPathB edges curr goal acc = true →
      (∃ s0, validOpenPathB edges s0 goal (reconstructGo cf edges fu curr acc t).1 = true) ∧
      (reconstructGo cf edges fu curr acc t).2 + pathWeight edges acc =
        t + pathWeight edges (reconstructGo cf edges fu curr acc t).1 := by
  intro fu
  induction fu with
  | zero => intro curr acc t hv; exact ⟨⟨curr, hv⟩, rfl⟩
  | succ fu ih =>
    intro curr acc t hv
    rw [reconstructGo]
    cases hget : cfGet cf curr with
    | none => exact ⟨⟨curr, hv⟩, rfl⟩
    | some pr =>
      obtain ⟨e, he, hid, hsrc, htgt, hcl⟩ := hcf (curr, pr) (cfGet_mem cf curr pr hget)
      have hfe : findEdge edges pr.1 = some e := hid ▸ findEdge_eq_of_mem edges e hnd he
      have hv2 : validOpenPathB edges pr.2 goal (pr.1 :: acc) = true := by
        rw [validOpenPathB, hfe]
        simp [hsrc, hcl, htgt, hv]
      have hw : pathWeight edges (pr.1 :: acc) = e.currentWeight + pathWeight edges acc := by
        rw [pathWeight, List.map_cons, List.sum_cons, hfe, ← pathWeight]
      obtain ⟨hex, heq⟩ := ih pr.2 (pr.1 :: acc) (t + e.currentWeight) hv2
      dsimp only
      rw [hfe]
      dsimp only
      refine ⟨hex, ?_⟩
      rw [hw] at heq
      linarith [heq]

/-- Every edge id on a valid open chain resolves (by the same first-match
lookup the code uses) to a non-closed edge. -/
theorem validOpenPathB_edges (edges : List Edge) (goal : String) :
    ∀ (p : List String) (s : String), validOpenPathB edges s goal p = true →
      ∀ eid ∈ p, ∃ e, findEdge edges eid = some e ∧ e.isClosed = false := by
  intro p
  induction p with
  | nil => intro s _ eid hm; cases hm
  | cons hd tl ih =>
    intro s hv eid hm
    rw [validOpenPathB] at hv
    cases hfe : findEdge edges hd with
    | none => rw [hfe] at hv; cases hv
    | some e =>
      rw [hfe] at hv
      simp only [Bool.and_eq_true] at hv
      rcases List.mem_cons.1 hm with rfl | htl
      · exact ⟨e, hfe, by simpa using hv.1.2⟩
      · exact ih e.targetId hv.2 eid htl

/-- Soundness package for `findPath`: a successful search returns a chain
of existing non-closed edges ending at the goal, whose reported cost is
the sum of the chain's dynamic weights. -/
theorem findPath_sound (fuel : ℕ) (dist : Point → Point → ℚ) (sId gId : String)
    (nodes : List Node) (edges : List Edge) (r : List String × ℚ)
    (hnd : (edges.map (fun x => x.id)).Nodup)
    (h : findPath fuel dist sId gId nodes edges = some r) :
    (∃ s0, validOpenPathB edges s0 gId r.1 = true) ∧ r.2 = pathWeight edges r.1 := by
  rw [findPath] at h
  cases hs : findNode nodes sId with
  | none => rw [hs] at h; cases h
  | some sn =>
    cases hg : findNode nodes gId with
    | none => rw [hs, hg] at h; cases h
    | some gn =>
      rw [hs, hg] at h
      obtain ⟨cf, hcf, hrec⟩ := aStarLoop_sound dist nodes edges gId gn fuel _
        (by intro x hx; cases hx) r h
      have hstart : validOpenPathB edges gId gId [] = true := by
        simp [validOpenPathB]
      obtain ⟨hex, heq⟩ := reconstructGo_spec cf edges gId hnd hcf
        (cf.length + 1) gId [] 0 hstart
      rw [reconstructPath] at hrec
      constructor
      · rw [hrec]; exact hex
      · rw [hrec]
        have : pathWeight edges ([] : List String) = 0 := by simp [pathWeight]
        rw [this] at heq
        linarith [heq]

/-- Claim C7: for every successful `findPath` call (on an edge list with
distinct ids), the reported cost `eta` equals the sum of the
`currentWeight` of the edges of the returned path, and every edge of the
returned path is an existing edge whose closed flag is not set. -/
theorem c7_planner_soundness (fuel : ℕ) (dist : Point → Point → ℚ) (sId gId : String)
    (nodes : List Node) (edges : List Edge) (r : List String × ℚ)
    (hnd : (edges.map (fun x => x.id)).Nodup)
    (h : findPath fuel dist sId gId nodes edges = some r) :
    r.2 = pathWeight edges r.1 ∧
    ∀ eid ∈ r.1, ∃ e, findEdge edges eid = some e ∧ e.isClosed = false := by
  obtain ⟨⟨s0, hv⟩, heq⟩ := findPath_sound fuel dist sId gId nodes edges r hnd h
  exact ⟨heq, validOpenPathB_edges edges gId r.1 s0 hv⟩

/-- Witness for C7 on the concrete collinear fixture. -/
theorem c7_planner_soundness_witness :
    (11 : ℚ) = pathWeight edgesAStar ["e1"] ∧
    ∀ eid ∈ ["e1"], ∃ e, findEdge edgesAStar eid = some e ∧ e.isClosed = false :=
  c7_planner_soundness 5 axisDist "S" "G" nodesAStar edgesAStar (["e1"], 11)
    (by with_unfolding_all decide) (by with_unfolding_all decide)

/-- Claim C2, counterexample: on the collinear fixture (where `axisDist`
coincides with the source's Euclidean distance) `findPath` returns the
direct edge of weight 11, yet the valid open chain `e2, e3` from the same
start to the same goal has total weight 21/2 < 11 under the same weight
snapshot — the returned path is not minimal, because the heuristic divides
by the incoming edge's free-flow speed and overestimates across a slow
edge followed by a fast one. -/
theorem c2_counterexample :
    findPath 5 axisDist "S" "G" nodesAStar edgesAStar = some (["e1"], 11) ∧
    validOpenPathB edgesAStar "S" "G" ["e2", "e3"] = true ∧
    pathWeight edgesAStar ["e2", "e3"] < 11 := by
  refine ⟨?_, ?_, ?_⟩ <;> with_unfolding_all decide

/-- Claim C2 (amended): a successful `findPath` call returns a chain of
adjacent, existing, non-closed edges ending at the goal node (rooted at
the node where parent reconstruction stopped, which is the start node in
every terminating run); minimality of the total weight is NOT guaranteed. -/
theorem c2_path_not_optimal_but_valid (fuel : ℕ) (dist : Point → Point → ℚ)
    (sId gId : String) (nodes : List Node) (edges : List Edge) (r : List String × ℚ)
    (hnd : (edges.map (fun x => x.id)).Nodup)
    (h : findPath fuel dist sId gId nodes edges = some r) :
    ∃ s0, validOpenPathB edges s0 gId r.1 = true :=
  (findPath_sound fuel dist sId gId nodes edges r hnd h).1

/-- Witness for C2 (amended) on the concrete collinear fixture. -/
theorem c2_path_not_optimal_but_valid_witness :
    ∃ s0, validOpenPathB edgesAStar s0 "G" ["e1"] = true :=
  c2_path_not_optimal_but_valid 5 axisDist "S" "G" nodesAStar edgesAStar (["e1"], 11)
    (by with_unfolding_all decide) (by with_unfolding_all decide)

/-- Motion skips every truck that is not in the `moving` state. -/
theorem moveTruck_not_moving (cfg : SimulationConfig) (nodes : List Node)
    (edges : List Edge) (t : Truck) (h : t.state ≠ TruckState.moving) :
    moveTruck cfg nodes edges t = (edges, t) := by
  simp [moveTruck, h]

/-- A waiting truck passes through the motion fold untouched. -/
theorem motionFold_mem_waiting (cfg : SimulationConfig) (nodes : List Node) :
    ∀ (pending : List Truck) (acc : MotionAcc) (t : Truck),
      (t ∈ acc.done ∨ (t ∈ pending ∧ t.state = TruckState.waiting)) →
      t ∈ (pending.foldl (motionStep cfg nodes) acc).done := by
  intro pending
  induction pending with
  | nil =>
    intro acc t h
    rcases h with h | ⟨h, _⟩
    · exact h
    · cases h
  | cons p ps ih =>
    intro acc t h
    rw [List.foldl_cons]
    apply ih
    rcases h with h | ⟨hm, hw⟩
    · exact Or.inl (by simp [motionStep]; exact Or.inl h)
    · rcases List.mem_cons.1 hm with rfl | hps
      · refine Or.inl ?_
        simp only [motionStep]
        rw [moveTruck_not_moving cfg nodes acc.edges t (by rw [hw]; intro hh; cases hh)]
        simp
      · exact Or.inr ⟨hps, hw⟩

/-- The localization step preserves every non-localization field. -/
theorem hysteresisStep_core (routers : List Router) (time : ℚ) (n : ℕ) (t : Truck)
    (cand : Option String) :
    (hysteresisStep routers time n t cand).state = t.state ∧
    (hysteresisStep routers time n t cand).position = t.position ∧
    (hysteresisStep routers time n t cand).currentEdgeId = t.currentEdgeId ∧
    (hysteresisStep routers time n t cand).distanceAlongEdge = t.distanceAlongEdge ∧
    (hysteresisStep routers time n t cand).routePlan = t.routePlan ∧
    (hysteresisStep routers time n t cand).destinationNodeId = t.destinationNodeId ∧
    (hysteresisStep routers time n t cand).speed = t.speed ∧
    (hysteresisStep routers time n t cand).rerouteCount = t.rerouteCount := by
  cases cand with
  | none => simp [hysteresisStep]
  | some c =>
    simp only [hysteresisStep]
    split_ifs <;> (try split) <;> (try split) <;> simp

/-- Localization maps each truck to one with the same core fields. -/
theorem locList_mem (dist : Point → Point → ℚ) (noise : ℕ → ℕ → ℚ)
    (cfg : SimulationConfig) (routers : List Router) (time : ℚ) :
    ∀ (l : List Truck) (i : ℕ) (t : Truck), t ∈ l →
      ∃ t' ∈ locList dist noise cfg routers time i l,
        t'.state = t.state ∧ t'.position = t.position ∧
        t'.currentEdgeId = t.currentEdgeId ∧
        t'.distanceAlongEdge = t.distanceAlongEdge ∧
        t'.routePlan = t.routePlan ∧ t'.destinationNodeId = t.destinationNodeId ∧
        t'.speed = t.speed ∧ t'.rerouteCount = t.rerouteCount := by
  intro l
  induction l with
  | nil => intro i t h; cases h
  | cons hd tl ih =>
    intro i t h
    rcases List.mem_cons.1 h with rfl | htl
    · by_cases hf : t.state = TruckState.finished
      · refine ⟨t, ?_, rfl, rfl, rfl, rfl, rfl, rfl, rfl, rfl⟩
        rw [locList, if_pos hf]
        exact List.mem_cons_self _ _
      · refine ⟨hysteresisStep routers time cfg.hysteresisN t
            (nearestRouterId dist (noise i) cfg.routerNoiseSigma routers t.position), ?_,
            hysteresisStep_core routers time cfg.hysteresisN t _⟩
        rw [locList, if_neg hf]
        exact List.mem_cons_self _ _
    · obtain ⟨t', ht', hcore⟩ := ih (i + 1) t htl
      exact ⟨t', by rw [locList]; exact List.mem_cons_of_mem _ ht', hcore⟩

/-- One tick leaves a waiting truck's core fields untouched and its state
`waiting`. -/
theorem tick_waiting_step (fuel : ℕ) (dist : Point → Point → ℚ) (noise : ℕ → ℕ → ℚ)
    (cfg : SimulationConfig) (s : Engine) (t : Truck)
    (ht : t ∈ s.trucks) (hw : t.state = TruckState.waiting) :
    ∃ t' ∈ (tick fuel dist noise cfg s).trucks,
      t'.state = TruckState.waiting ∧ t'.position = t.position ∧
      t'.currentEdgeId = t.currentEdgeId ∧
      t'.distanceAlongEdge = t.distanceAlongEdge ∧
      t'.routePlan = t.routePlan ∧ t'.destinationNodeId = t.destinationNodeId ∧
      t'.speed = t.speed ∧ t'.rerouteCount = t.rerouteCount := by
  rw [tick]
  have hm : t ∈ (motionPhase cfg { s with time := s.time + cfg.dt }).trucks := by
    rw [motionPhase]
    exact motionFold_mem_waiting cfg s.nodes s.trucks _ t (Or.inr ⟨ht, hw⟩)
  have hp : t ∈ (prunePhase (motionPhase cfg { s with time := s.time + cfg.dt })).trucks := by
    rw [prunePhase]
    refine List.mem_filter.2 ⟨hm, ?_⟩
    rw [hw]
    decide
  obtain ⟨t1, ht1, hst, hpos, hce, hda, hrp, hdst, hsp, hrc⟩ :=
    locList_mem dist noise cfg
      (prunePhase (motionPhase cfg { s with time := s.time + cfg.dt })).routers
      (prunePhase (motionPhase cfg { s with time := s.time + cfg.dt })).time
      (prunePhase (motionPhase cfg { s with time := s.time + cfg.dt })).trucks 0 t hp
  have ht1w : t1.state = TruckState.waiting := hst.trans hw
  have hloc : t1 ∈ (localizationPhase dist noise cfg
      (prunePhase (motionPhase cfg { s with time := s.time + cfg.dt }))).trucks := ht1
  have hcong : t1 ∈ (congestionPhase cfg (localizationPhase dist noise cfg
      (prunePhase (motionPhase cfg { s with time := s.time + cfg.dt })))).trucks := hloc
  have hro : rerouteOne fuel dist
      (congestionPhase cfg (localizationPhase dist noise cfg
        (prunePhase (motionPhase cfg { s with time := s.time + cfg.dt })))).nodes
      (congestionPhase cfg (localizationPhase dist noise cfg
        (prunePhase (motionPhase cfg { s with time := s.time + cfg.dt })))).edges t1 = t1 := by
    rw [rerouteOne, if_neg]
    rw [ht1w]
    decide
  refine ⟨t1, ?_, ht1w, hpos, hce, hda, hrp, hdst, hsp, hrc⟩
  rw [reroutePhase]
  split
  · exact hro ▸ List.mem_map_of_mem _ hcong
  · exact hcong

/-- Claim C10: once a truck is in the `waiting` state, no run of ticks
(whatever the noise and planner fuel) ever changes its state, position,
progress, plan, destination, speed or reroute counter: the motion phase
skips non-moving trucks, localization touches only localization fields,
and the re-plan phase only considers `moving` trucks, so a waiting truck
remains waiting forever. -/
theorem c10_waiting_frozen (fuel : ℕ) (dist : Point → Point → ℚ)
    (cfg : SimulationConfig) :
    ∀ (n : ℕ) (noises : ℕ → ℕ → ℕ → ℚ) (s : Engine) (t : Truck),
      t ∈ s.trucks → t.state = TruckState.waiting →
      ∃ t' ∈ (ticks fuel dist noises cfg n s).trucks,
        t'.state = TruckState.waiting ∧ t'.position = t.position ∧
        t'.currentEdgeId = t.currentEdgeId ∧
        t'.distanceAlongEdge = t.distanceAlongEdge ∧
        t'.routePlan = t.routePlan ∧ t'.destinationNodeId = t.destinationNodeId ∧
        t'.speed = t.speed ∧ t'.rerouteCount = t.rerouteCount := by
  intro n
  induction n with
  | zero =>
    intro noises s t ht hw
    exact ⟨t, ht, hw, rfl, rfl, rfl, rfl, rfl, rfl, rfl⟩
  | succ k ih =>
    intro noises s t ht hw
    obtain ⟨t1, ht1, h1w, h1pos, h1ce, h1da, h1rp, h1dst, h1sp, h1rc⟩ :=
      tick_waiting_step fuel dist (noises 0) cfg s t ht hw
    obtain ⟨t2, ht2, h2w, h2pos, h2ce, h2da, h2rp, h2dst, h2sp, h2rc⟩ :=
      ih (fun j => noises (j + 1)) (tick fuel dist (noises 0) cfg s) t1 ht1 h1w
    rw [ticks]
    exact ⟨t2, ht2, h2w, h2pos.trans h1pos, h2ce.trans h1ce, h2da.trans h1da,
      h2rp.trans h1rp, h2dst.trans h1dst, h2sp.trans h1sp, h2rc.trans h1rc⟩

/-- Witness for C10: two ticks on the waiting fixture keep the waiting
truck frozen. -/
theorem c10_waiting_frozen_witness :
    ∃ t' ∈ (ticks 3 axisDist (fun _ _ _ => 0) cfgA 2 engineWaiting).trucks,
      t'.state = TruckState.waiting ∧ t'.position = waitingTruck.position ∧
      t'.currentEdgeId = waitingTruck.currentEdgeId ∧
      t'.distanceAlongEdge = waitingTruck.distanceAlongEdge ∧
      t'.routePlan = waitingTruck.routePlan ∧
      t'.destinationNodeId = waitingTruck.destinationNodeId ∧
      t'.speed = waitingTruck.speed ∧ t'.rerouteCount = waitingTruck.rerouteCount :=
  c10_waiting_frozen 3 axisDist cfgA 2 (fun _ _ _ => 0) engineWaiting waitingTruck
    (by with_unfolding_all decide) (by with_unfolding_all decide)

/-- Failing edge lookup means no listed edge has that id. -/
theorem findEdge_none (edges : List Edge) (i : String)
    (h : findEdge edges i = none) : ∀ e ∈ edges, e.id ≠ i := by
  intro e he
  have := List.find?_eq_none.1 h e he
  simpa using this

/-- Successful edge lookup returns a listed edge bearing that id. -/
theorem findEdge_some (edges : List Edge) (i : String) (e : Edge)
    (h : findEdge edges i = some e) : e ∈ edges ∧ e.id = i :=
  ⟨List.mem_of_find?_eq_some h, by simpa using List.find?_some h⟩

/-- Under distinct ids, mutating the first id-match equals mutating the
(unique) id-match pointwise. -/
theorem updateFirst_eq_map (edges : List Edge) (i : String) (g : Edge → Edge)
    (hnd : (edges.map (fun x => x.id)).Nodup) :
    updateFirst edges i g = edges.map (fun e => if e.id = i then g e else e) := by
  induction edges with
  | nil => rfl
  | cons hd tl ih =>
    simp only [List.map_cons, List.nodup_cons, List.mem_map] at hnd
    rw [updateFirst, List.map_cons]
    by_cases hh : hd.id = i
    · rw [if_pos (by simpa using hh), if_pos hh]
      congr 1
      have : ∀ e ∈ tl, (if e.id = i then g e else e) = e := by
        intro e he
        rw [if_neg]
        intro hei
        exact hnd.1 ⟨e, he, by rw [hei, hh]⟩
      rw [List.map_congr_left this]
      simp
    · rw [if_neg (by simpa using hh), if_neg hh, ih hnd.2]

/-- Single-truck motion accounting: if the edge loads are explained as a
baseline `f` plus this truck's own moving-on-edge indicator, the same
holds after the truck moves, with the edge ids unchanged. -/
theorem moveTruck_load (cfg : SimulationConfig) (nodes : List Node) (edges : List Edge)
    (t : Truck) (f : String → ℚ) (hf : ∀ i, 0 ≤ f i)
    (hnd : (edges.map (fun x => x.id)).Nodup)
    (h : ∀ e ∈ edges, e.currentLoad = f e.id + (cnt t e.id : ℚ)) :
    ((moveTruck cfg nodes edges t).1.map (fun x => x.id) = edges.map (fun x => x.id)) ∧
    ∀ e ∈ (moveTruck cfg nodes edges t).1,
      e.currentLoad = f e.id + (cnt (moveTruck cfg nodes edges t).2 e.id : ℚ) := by
  by_cases hmv : t.state = TruckState.moving
  case neg =>
    rw [moveTruck_not_moving cfg nodes edges t hmv]
    exact ⟨rfl, h⟩
  case pos =>
    rw [moveTruck, if_neg (by simp [hmv])]
    cases hbind : t.currentEdgeId.bind (findEdge edges) with
    | none =>
      refine ⟨rfl, ?_⟩
      intro e he
      have hcnt0 : cnt t e.id = 0 := by
        cases hcid : t.currentEdgeId with
        | none => simp [cnt, hcid]
        | some i =>
          rw [hcid, Option.some_bind] at hbind
          have := findEdge_none edges i hbind e he
          simp [cnt, hcid]
          intro _ hei
          exact absurd hei.symm this
      have := h e he
      rw [hcnt0] at this
      simpa [cnt] using this
    | some ce =>
      obtain ⟨i, hcid, hfe⟩ := Option.bind_eq_some.1 hbind
      obtain ⟨hceMem, hceId⟩ := findEdge_some edges i ce hfe
      rw [← hceId] at hcid
      dsimp only
      generalize ht2 : (match findNode nodes ce.sourceId, findNode nodes ce.targetId with
        | some sn, some en =>
          { t with distanceAlongEdge := t.distanceAlongEdge + t.speed * cfg.dt,
                   totalDistance := t.totalDistance + t.speed * cfg.dt,
                   totalTime := t.totalTime + cfg.dt,
                   position := getPointOnSegment sn.pos en.pos
                     (min 1 ((t.distanceAlongEdge + t.speed * cfg.dt) / ce.length)) }
        | _, _ =>
          { t with distanceAlongEdge := t.distanceAlongEdge + t.speed * cfg.dt,
                   totalDistance := t.totalDistance + t.speed * cfg.dt,
                   totalTime := t.totalTime + cfg.dt }) = t2
      have hproj : t2.state = TruckState.moving ∧ t2.currentEdgeId = some ce.id ∧
          t2.routePlan = t.routePlan := by
        cases hsn : findNode nodes ce.sourceId with
        | none =>
          rw [hsn] at ht2
          dsimp at ht2
          rw [← ht2]
          exact ⟨hmv, hcid, rfl⟩
        | some sn =>
          cases htn : findNode nodes ce.targetId with
          | none =>
            rw [hsn, htn] at ht2
            dsimp at ht2
            rw [← ht2]
            exact ⟨hmv, hcid, rfl⟩
          | some en =>
            rw [hsn, htn] at ht2
            dsimp at ht2
            rw [← ht2]
            exact ⟨hmv, hcid, rfl⟩
      have hce_cnt : ∀ e ∈ edges, (cnt t e.id : ℚ) = if e.id = ce.id then 1 else 0 := by
        intro e _
        simp only [cnt, hmv, hcid, true_and, Option.some.injEq]
        by_cases hei : ce.id = e.id
        · rw [if_pos hei, if_pos hei.symm]
          norm_num
        · rw [if_neg hei, if_neg (fun hh => hei hh.symm)]
          norm_num
      have hids1 : ((edges.map (fun e =>
          if e.id = ce.id then { e with currentLoad := max 0 (e.currentLoad - 1) } else e)).map
            (fun x => x.id)) = edges.map (fun x => x.id) := by
        rw [List.map_map]
        refine List.map_congr_left ?_
        intro e _
        by_cases hei : e.id = ce.id <;> simp [hei]
      have hload1 : ∀ e' ∈ edges.map (fun e =>
          if e.id = ce.id then { e with currentLoad := max 0 (e.currentLoad - 1) } else e),
          e'.currentLoad = f e'.id := by
        intro e' he'
        obtain ⟨e, heMem, rfl⟩ := List.mem_map.1 he'
        have hh := h e heMem
        rw [hce_cnt e heMem] at hh
        by_cases hei : e.id = ce.id
        · rw [if_pos hei] at hh ⊢
          simp only [hh]
          have harith : f e.id + 1 - 1 = f e.id := by ring
          rw [harith, max_eq_right (hf e.id)]
        · rw [if_neg hei] at hh ⊢
          simpa using hh
      by_cases hdone : t.distanceAlongEdge + t.speed * cfg.dt ≥ ce.length
      · rw [if_pos hdone, updateFirst_eq_map edges ce.id _ hnd]
        cases hplan : (if t2.routePlan.head? == t2.currentEdgeId then t2.routePlan.tail
            else t2.routePlan) with
        | nil =>
          dsimp only
          refine ⟨hids1, ?_⟩
          intro e' he'
          rw [hload1 e' he']
          simp [cnt]
        | cons nextId rest =>
          dsimp only
          cases hne : findEdge (edges.map (fun e =>
              if e.id = ce.id then { e with currentLoad := max 0 (e.currentLoad - 1) } else e))
              nextId with
          | none =>
            dsimp only
            refine ⟨hids1, ?_⟩
            intro e' he'
            rw [hload1 e' he']
            simp [cnt]
          | some ne =>
            dsimp only
            by_cases hopen : ne.isClosed = false ∨ cfg.policy = Policy.queue
            · rw [if_pos hopen]
              obtain ⟨hneMem, hneId⟩ := findEdge_some _ nextId ne hne
              have hnd1 : ((edges.map (fun e =>
                  if e.id = ce.id then { e with currentLoad := max 0 (e.currentLoad - 1) }
                  else e)).map (fun x => x.id)).Nodup := by
                rw [hids1]; exact hnd
              rw [updateFirst_eq_map _ ne.id _ hnd1]
              constructor
              · rw [List.map_map]
                rw [show ((fun x => x.id) ∘ fun e =>
                    if e.id = ne.id then { e with currentLoad := e.currentLoad + 1 } else e) =
                    (fun e : Edge => e.id) from ?_]
                · exact hids1
                · funext e
                  by_cases hei : e.id = ne.id <;> simp [hei]
              · intro e'' he''
                obtain ⟨e', he'Mem, rfl⟩ := List.mem_map.1 he''
                have hl := hload1 e' he'Mem
                have hcnt2 : ∀ j : String,
                    (cnt { t2 with
                      distanceAlongEdge := 0,
                      routePlan := nextId :: rest,
                      currentEdgeId := some ne.id } j : ℚ) =
                    if j = ne.id then 1 else 0 := by
                  intro j
                  simp only [cnt, hproj.1, true_and, Option.some.injEq]
                  by_cases hj : ne.id = j
                  · rw [if_pos hj, if_pos hj.symm]
                    norm_num
                  · rw [if_neg hj, if_neg (fun hh => hj hh.symm)]
                    norm_num
                by_cases hei : e'.id = ne.id
                · rw [if_pos hei]
                  simp only [hcnt2]
                  rw [if_pos hei, hl, hei]
                · rw [if_neg hei]
                  simp only [hcnt2]
                  rw [if_neg hei, hl]
                  ring
            · rw [if_neg hopen]
              refine ⟨hids1, ?_⟩
              intro e' he'
              rw [hload1 e' he']
              simp [cnt]
      · rw [if_neg hdone]
        refine ⟨rfl, ?_⟩
        intro e he
        have : cnt t2 e.id = cnt t e.id := by
          simp only [cnt, hproj.1, hproj.2.1, hmv, hcid]
        rw [this]
        exact h e he

/-- Appending lists adds their moving-on-edge counts. -/
theorem countMovingOn_append (l1 l2 : List Truck) (i : String) :
    countMovingOn (l1 ++ l2) i = countMovingOn l1 i + countMovingOn l2 i := by
  simp [countMovingOn]

/-- Cons form of the moving-on-edge count. -/
theorem countMovingOn_cons (t : Truck) (l : List Truck) (i : String) :
    countMovingOn (t :: l) i = cnt t i + countMovingOn l i := by
  simp [countMovingOn]

/-- Motion-fold accounting: if the loads are explained by the processed
trucks plus the still-pending trucks, after folding the pending trucks the
loads are explained by all processed trucks. -/
theorem motionFold_load (cfg : SimulationConfig) (nodes : List Node) :
    ∀ (pending : List Truck) (acc : MotionAcc),
      ((acc.edges.map (fun x => x.id)).Nodup) →
      (∀ e ∈ acc.edges, e.currentLoad =
        (countMovingOn acc.done e.id : ℚ) + (countMovingOn pending e.id : ℚ)) →
      (((pending.foldl (motionStep cfg nodes) acc).edges.map (fun x => x.id)) =
        acc.edges.map (fun x => x.id)) ∧
      ∀ e ∈ (pending.foldl (motionStep cfg nodes) acc).edges,
        e.currentLoad =
          (countMovingOn (pending.foldl (motionStep cfg nodes) acc).done e.id : ℚ) := by
  intro pending
  induction pending with
  | nil =>
    intro acc hnd h
    refine ⟨rfl, ?_⟩
    intro e he
    have := h e he
    simpa [countMovingOn] using this
  | cons p ps ih =>
    intro acc hnd h
    rw [List.foldl_cons]
    have hstep := moveTruck_load cfg nodes acc.edges p
      (fun j => (countMovingOn acc.done j : ℚ) + (countMovingOn ps j : ℚ))
      (fun j => by positivity)
      hnd
      (by
        intro e he
        have := h e he
        rw [this, countMovingOn_cons]
        push_cast
        ring)
    obtain ⟨hids, hloads⟩ := hstep
    have hacc' :
        ((motionStep cfg nodes acc p).edges.map (fun x => x.id)).Nodup := by
      show (((moveTruck cfg nodes acc.edges p).1).map (fun x => x.id)).Nodup
      rw [hids]; exact hnd
    obtain ⟨hids2, hloads2⟩ := ih (motionStep cfg nodes acc p) hacc'
      (by
        intro e he
        have := hloads e he
        rw [this]
        show _ = (countMovingOn (acc.done ++ [(moveTruck cfg nodes acc.edges p).2]) e.id : ℚ) + _
        rw [countMovingOn_append]
        push_cast
        simp [countMovingOn]
        ring)
    refine ⟨?_, hloads2⟩
    rw [hids2]
    exact hids

/-- Pruning finished trucks does not change moving-truck counts. -/
theorem countMovingOn_prune (l : List Truck) (i : String) :
    countMovingOn (l.filter (fun t => t.state ≠ TruckState.finished)) i =
      countMovingOn l i := by
  induction l with
  | nil => rfl
  | cons t ts ih =>
    rw [List.filter_cons]
    by_cases hf : t.state = TruckState.finished
    · rw [if_neg (by simp [hf])]
      rw [countMovingOn_cons, ih]
      have : cnt t i = 0 := by simp [cnt, hf]
      rw [this]
      omega
    · rw [if_pos (by simp [hf])]
      rw [countMovingOn_cons, countMovingOn_cons, ih]

/-- Claim C1 (amended): provided edge ids are distinct and the invariant
held when the tick began, then immediately after the motion phase (with
its finished-truck pruning) every edge's `currentLoad` equals the number
of active trucks IN THE MOVING STATE whose current edge is that edge.
The unrestricted count over all active trucks is falsified by waiting
trucks (see the counterexample): a truck blocked at an edge boundary
keeps the completed edge as its current edge but no longer contributes to
its load. -/
theorem c1_load_invariant_moving (cfg : SimulationConfig) (s : Engine)
    (hnd : (s.edges.map (fun x => x.id)).Nodup)
    (hinv : MovingLoadInv s.edges s.trucks) :
    MovingLoadInv (prunePhase (motionPhase cfg s)).edges
      (prunePhase (motionPhase cfg s)).trucks := by
  have hfold := motionFold_load cfg s.nodes s.trucks
    { edges := s.edges, done := [], completed := s.completedTrips,
      tripTime := s.totalTripTime, tripDist := s.totalTripDistance }
    hnd
    (by
      intro e he
      have := hinv e he
      rw [this]
      simp [countMovingOn])
  intro e he
  have he' : e ∈ (s.trucks.foldl (motionStep cfg s.nodes)
      { edges := s.edges, done := [], completed := s.completedTrips,
        tripTime := s.totalTripTime, tripDist := s.totalTripDistance }).edges := he
  have := hfold.2 e he'
  rw [prunePhase, motionPhase]
  show e.currentLoad = _
  rw [this]
  norm_cast
  exact (countMovingOn_prune _ e.id).symm

/-- Witness for C1 (amended) on the blocked fixture: the invariant holds
before the tick and still holds, restricted to moving trucks, after the
motion phase in which the truck exits its edge and becomes `waiting`. -/
theorem c1_load_invariant_moving_witness :
    MovingLoadInv (prunePhase (motionPhase cfgA engineBlocked)).edges
      (prunePhase (motionPhase cfgA engineBlocked)).trucks :=
  c1_load_invariant_moving cfgA engineBlocked
    (by with_unfolding_all decide) (by with_unfolding_all decide)
